import Mathlib

/-
Verification of the fotoForward serial transfer protocol
(src/pythonRPI/serialfotoguardachunks.py and src/pythonRPI/sfv2.py).

Modelling choices, shared by all definitions below:
- The serial channel input is a list of `TimedLine`: each line the peer will
  deliver, tagged with its wall-clock arrival time (in seconds, as Nat).
  Lines are already decoded; `decode(errors=ignore)` in the source never
  raises, so decode failures cannot terminate a wait and are invisible here.
- Writes to the channel take no time; a wait started right after a write
  begins at the current clock value.
- `ser.readline()` (device timeout 1 s) is idealised: every line arriving
  strictly before the deadline of the enclosing wait loop is read, a line
  that matches returns at its arrival instant, and when no line matches the
  loop returns exactly at the deadline.
- Payload bytes are modelled as `List Nat`.
- Loops of the source are translated with a fuel argument equal to the exact
  iteration bound of the loop, which keeps the recursion structural so that
  concrete runs evaluate inside the kernel; fuel-irrelevance lemmas below
  show the value never depends on the fuel once it is at least the bound.
-/

namespace FotoForward

/-- Python str.strip(): remove leading and trailing whitespace. Implemented
structurally over the character list so that it evaluates in the kernel. -/
def pyStrip (s : String) : String :=
  String.mk (((s.data.dropWhile Char.isWhitespace).reverse.dropWhile Char.isWhitespace).reverse)

/-- Python str.lower() for the ASCII command tokens at hand. -/
def pyLower (s : String) : String :=
  String.mk (s.data.map Char.toLower)

/-- Helper of `pySplit`: accumulate the current word (reversed). -/
def pySplitAux : List Char → List Char → List String
  | [], acc => if acc.isEmpty then [] else [String.mk acc.reverse]
  | c :: cs, acc =>
    if c.isWhitespace then
      if acc.isEmpty then pySplitAux cs [] else String.mk acc.reverse :: pySplitAux cs []
    else pySplitAux cs (c :: acc)

/-- Python str.split() with no argument: split on whitespace runs, never
producing empty tokens. -/
def pySplit (s : String) : List String :=
  pySplitAux s.data []

/-- Helper of `pyToInt`: read a digit string into a Nat. -/
def natOfDigitsAux : List Char → Nat → Option Nat
  | [], acc => some acc
  | c :: cs, acc =>
    if c.isDigit then natOfDigitsAux cs (acc * 10 + (c.toNat - 48)) else none

/-- Digits of a nonempty decimal numeral. -/
def natOfDigits : List Char → Option Nat
  | [] => none
  | l => natOfDigitsAux l 0

/-- Python int(token) for the plain tokens the dispatcher receives: an
optional sign followed by decimal digits, None (ValueError) otherwise. -/
def pyToInt (s : String) : Option Int :=
  match s.data with
  | '-' :: rest => (natOfDigits rest).map (fun n => -(n : Int))
  | '+' :: rest => (natOfDigits rest).map (fun n => (n : Int))
  | l => (natOfDigits l).map (fun n => (n : Int))

/-- One line the peer delivers on the serial channel, with its arrival time. -/
structure TimedLine where
  arrival : Nat
  line : String
deriving DecidableEq

/-- Result of one `wait_for` call: whether the token was seen, the wall-clock
time at which the call returned, and the input lines not yet consumed. -/
structure WaitOut where
  found : Bool
  time : Nat
  rest : List TimedLine
deriving DecidableEq

/-- ACK_TIMEOUT = 10 from the source configuration block. -/
def ACK_TIMEOUT : Nat := 10

/-- CHUNK_SIZE = 256 from the source configuration block. -/
def CHUNK_SIZE : Nat := 256

/-- DEFAULT_WIDTH = 1024 from the source configuration block. -/
def DEFAULT_WIDTH : Int := 1024

/-- DEFAULT_QUALITY = 5 from the source configuration block. -/
def DEFAULT_QUALITY : Int := 5

/-- wait_for from serialfotoguardachunks.py lines 78 to 88: read stripped
lines until one equals `expected` (return True) or the deadline
`now + timeout` passes (return False). Non-matching lines are consumed and
do not move the deadline. -/
def wait_for (now timeout : Nat) (expected : String) : List TimedLine → WaitOut
  | [] => ⟨false, now + timeout, []⟩
  | tl :: rest =>
    if tl.arrival < now + timeout then
      if pyStrip tl.line = expected then ⟨true, max now tl.arrival, rest⟩
      else wait_for now timeout expected rest
    else ⟨false, now + timeout, tl :: rest⟩

/-- wait_for from sfv2.py lines 78 to 93: identical loop, but it first calls
`ser.reset_input_buffer()`, discarding the lines already buffered at call
time, i.e. those that arrived strictly before `now`. -/
def wait_for_reset (now timeout : Nat) (expected : String) (input : List TimedLine) : WaitOut :=
  wait_for now timeout expected (input.dropWhile (fun tl => tl.arrival < now))

/-- Observable channel events produced by one send call, in order. -/
inductive Event where
  | writeHeader (s : String)
  | writeChunk (offset : Nat) (bytes : List Nat)
  | tokenObserved (tok : String) (time : Nat)
  | waitTimeout (tok : String) (time : Nat)
deriving DecidableEq

/-- Result of send_data_via_serial: success flag, the ordered event trace,
the return time, and the unconsumed channel input. -/
structure SendOut where
  ok : Bool
  events : List Event
  time : Nat
  rest : List TimedLine
deriving DecidableEq

/-- The header line from serialfotoguardachunks.py line 99: the destination
name, a pipe, the decimal total length and a line feed. -/
def build_header (dest_name : String) (total_len : Nat) : String :=
  dest_name ++ "|" ++ toString total_len ++ "\n"

/-- The chunk loop of send_data_via_serial (serialfotoguardachunks.py lines
109 to 117): while offset < total, write data[offset:end] with
end = min(offset + CHUNK_SIZE, total), wait for ACK, stop on timeout.
The fuel argument bounds the iterations; `sendChunks` instantiates it at
the exact bound `data.length - offset`. -/
def sendChunksF : Nat → List Nat → Nat → Nat → List TimedLine → SendOut
  | 0, _, _, now, input => ⟨true, [], now, input⟩
  | fuel + 1, data, offset, now, input =>
    if offset < data.length then
      let e := min (offset + CHUNK_SIZE) data.length
      let chunk := (data.drop offset).take (e - offset)
      let w := wait_for now ACK_TIMEOUT "ACK" input
      if w.found then
        let r := sendChunksF fuel data e w.time w.rest
        ⟨r.ok, Event.writeChunk offset chunk :: Event.tokenObserved "ACK" w.time :: r.events,
          r.time, r.rest⟩
      else
        ⟨false, [Event.writeChunk offset chunk, Event.waitTimeout "ACK" w.time], w.time, w.rest⟩
    else ⟨true, [], now, input⟩

/-- The chunk loop at its exact iteration bound. -/
def sendChunks (data : List Nat) (offset now : Nat) (input : List TimedLine) : SendOut :=
  sendChunksF (data.length - offset) data offset now input

/-- send_data_via_serial from serialfotoguardachunks.py lines 90 to 125
(sfv2.py lines 96 to 127 is the same algorithm): write the header, wait for
READY, send each chunk waiting for ACK, wait for DONE. -/
def send_data_via_serial (now : Nat) (data : List Nat) (dest_name : String)
    (input : List TimedLine) : SendOut :=
  let header := build_header dest_name data.length
  let w0 := wait_for now ACK_TIMEOUT "READY" input
  if w0.found then
    let rc := sendChunks data 0 w0.time w0.rest
    if rc.ok then
      let wd := wait_for rc.time ACK_TIMEOUT "DONE" rc.rest
      if wd.found then
        ⟨true, Event.writeHeader header :: Event.tokenObserved "READY" w0.time ::
          rc.events ++ [Event.tokenObserved "DONE" wd.time], wd.time, wd.rest⟩
      else
        ⟨false, Event.writeHeader header :: Event.tokenObserved "READY" w0.time ::
          rc.events ++ [Event.waitTimeout "DONE" wd.time], wd.time, wd.rest⟩
    else
      ⟨false, Event.writeHeader header :: Event.tokenObserved "READY" w0.time :: rc.events,
        rc.time, rc.rest⟩
  else
    ⟨false, [Event.writeHeader header, Event.waitTimeout "READY" w0.time], w0.time, w0.rest⟩

/-- The chunking discipline of the loop in isolation (the FrameBuilder
chunks_of contract): the slice boundaries of serialfotoguardachunks.py
lines 109 to 117, for a general chunk size. Fuel as in `sendChunksF`. -/
def chunksOfF : Nat → List Nat → Nat → Nat → List (List Nat)
  | 0, _, _, _ => []
  | fuel + 1, p, c, offset =>
    if offset < p.length then
      let e := min (offset + c) p.length
      ((p.drop offset).take (e - offset)) :: chunksOfF fuel p c e
    else []

/-- chunks_of payload chunk_size: the chunk sequence the loop writes. -/
def chunks_of (p : List Nat) (c : Nat) : List (List Nat) :=
  chunksOfF p.length p c 0

/-- Number of chunks: ceil(n / c) written as (n + c - 1) / c. -/
def numChunks (n c : Nat) : Nat := (n + c - 1) / c

/-- Concatenation of a chunk list. -/
def flat (L : List (List Nat)) : List Nat := L.foldr (fun a b => a ++ b) []

/-- The payload slices written in a trace, in order. -/
def payloadChunks (evs : List Event) : List (List Nat) :=
  evs.filterMap fun e =>
    match e with
    | Event.writeChunk _ b => some b
    | _ => none

/-- The offsets of the chunk writes in a trace, in order. -/
def chunkOffsets (evs : List Event) : List Nat :=
  evs.filterMap fun e =>
    match e with
    | Event.writeChunk o _ => some o
    | _ => none

/-- Total payload bytes written in a trace (header and tokens excluded). -/
def payloadBytes (evs : List Event) : Nat :=
  ((payloadChunks evs).map List.length).sum

/-- Whether an event is a chunk write. -/
def isChunkWrite : Event → Bool
  | Event.writeChunk _ _ => true
  | _ => false

/-- Whether an event is an observed ACK token. -/
def isAckObserved : Event → Bool
  | Event.tokenObserved tok _ => tok == "ACK"
  | _ => false

/-- The subtrace of chunk writes and ACK observations. -/
def chunkAckSeq (evs : List Event) : List Event :=
  evs.filter fun e => isChunkWrite e || isAckObserved e

/-- Checks the stop-and-wait shape: a chunk write, then an ACK observation,
alternating; a trailing lone chunk write is the one whose ACK timed out. -/
def altOk : List Event → Bool
  | [] => true
  | [e] => isChunkWrite e
  | e1 :: e2 :: r => isChunkWrite e1 && isAckObserved e2 && altOk r

/-- Whether an event involves the ACK token at all (observed or timed out). -/
def mentionsAck : Event → Bool
  | Event.tokenObserved tok _ => tok == "ACK"
  | Event.waitTimeout tok _ => tok == "ACK"
  | _ => false

/-- One wait for `tok`: the clock and remaining input after it returns. -/
def waitStep (tok : String) (s : Nat × List TimedLine) : Nat × List TimedLine :=
  ((wait_for s.1 ACK_TIMEOUT tok s.2).time, (wait_for s.1 ACK_TIMEOUT tok s.2).rest)

/-- Clock and remaining input after j successive waits for `tok`. -/
def waitIter (tok : String) (s : Nat × List TimedLine) : Nat → Nat × List TimedLine
  | 0 => s
  | j + 1 => waitStep tok (waitIter tok s j)

/-- Whether the j-th ACK wait (counting from state s) finds its token. -/
def ackFound (s : Nat × List TimedLine) (j : Nat) : Bool :=
  (wait_for (waitIter "ACK" s j).1 ACK_TIMEOUT "ACK" (waitIter "ACK" s j).2).found

/-- State (clock, unread input) right after the READY wait of a send. -/
def afterReady (now : Nat) (input : List TimedLine) : Nat × List TimedLine :=
  ((wait_for now ACK_TIMEOUT "READY" input).time, (wait_for now ACK_TIMEOUT "READY" input).rest)

/-- The DONE wait a send of n payload bytes performs after all ACK waits. -/
def doneWait (now : Nat) (input : List TimedLine) (n : Nat) : WaitOut :=
  wait_for (waitIter "ACK" (afterReady now input) (numChunks n CHUNK_SIZE)).1 ACK_TIMEOUT "DONE"
    (waitIter "ACK" (afterReady now input) (numChunks n CHUNK_SIZE)).2

/-- Channel input in chronological order. -/
def Chrono (l : List TimedLine) : Prop :=
  l.Pairwise (fun a b => a.arrival ≤ b.arrival)

instance (l : List TimedLine) : Decidable (Chrono l) :=
  inferInstanceAs (Decidable (List.Pairwise (fun a b : TimedLine => a.arrival ≤ b.arrival) l))

/-- A parsed foto command: width and quality values plus whether each fell
back to its default with a warning. -/
structure Command where
  width : Int
  quality : Int
  widthWarned : Bool
  qualityWarned : Bool
deriving DecidableEq

/-- The command dispatch of main (serialfotoguardachunks.py lines 134 to 157,
sfv2.py lines 191 to 214): strip the line, skip it when empty, split on
whitespace, require first token (lowercased) to be foto, then parse optional
width and quality, each falling back to its default with a warning. -/
def parseCommand (rawLine : String) : Option Command :=
  let line := pyStrip rawLine
  if line = "" then none
  else
    let parts := pySplit line
    match parts with
    | [] => none
    | p0 :: _ =>
      if pyLower p0 ≠ "foto" then none
      else
        let wr :=
          match parts[1]? with
          | none => (DEFAULT_WIDTH, false)
          | some t =>
            match pyToInt t with
            | some v => (v, false)
            | none => (DEFAULT_WIDTH, true)
        let qr :=
          match parts[2]? with
          | none => (DEFAULT_QUALITY, false)
          | some t =>
            match pyToInt t with
            | some v => (v, false)
            | none => (DEFAULT_QUALITY, true)
        some ⟨wr.1, qr.1, wr.2, qr.2⟩

/-- Whether the process keeps running or exits with a code. -/
inductive LoopCtl where
  | cont
  | halt (code : Nat)
deriving DecidableEq

/-- Startup of sfv2.py main lines 175 to 177: sys.exit(1) when no serial
port could be acquired, otherwise proceed. -/
def startupExit (port : Option String) : LoopCtl :=
  match port with
  | none => LoopCtl.halt 1
  | some _ => LoopCtl.cont

/-- One iteration of the dispatch loop body (sfv2.py lines 191 to 221):
non-commands are skipped; a foto command invokes the payload producer and
then the transfer; success or failure of the transfer is only reported and
the loop continues either way. Returns the transfer result when one ran. -/
def loopBody (line : String) (producer : Int → Int → String × List Nat)
    (now : Nat) (input : List TimedLine) : LoopCtl × Option SendOut :=
  match parseCommand line with
  | none => (LoopCtl.cont, none)
  | some cmd =>
    let pr := producer cmd.width cmd.quality
    let r := send_data_via_serial now pr.2 pr.1 input
    (LoopCtl.cont, some r)

/-- The dispatch loop over a finite schedule of incoming command lines:
while True with no break, threading the clock and channel input through
each transfer. -/
def runLoop : List String → (Int → Int → String × List Nat) → Nat → List TimedLine → LoopCtl
  | [], _, _, _ => LoopCtl.cont
  | l :: ls, producer, now, input =>
    match loopBody l producer now input with
    | (LoopCtl.cont, none) => runLoop ls producer now input
    | (LoopCtl.cont, some r) => runLoop ls producer r.time r.rest
    | (LoopCtl.halt c, _) => LoopCtl.halt c

set_option maxRecDepth 40000

/-! Lemmas about the deadline wait primitive. -/

lemma wait_found_exists {now t : Nat} {e : String} :
    ∀ {input : List TimedLine}, (wait_for now t e input).found = true →
      ∃ tl ∈ input, tl.arrival < now + t ∧ pyStrip tl.line = e := by
  intro input
  induction input with
  | nil => simp [wait_for]
  | cons tl rest ih =>
    intro h
    by_cases h1 : tl.arrival < now + t
    · by_cases h2 : pyStrip tl.line = e
      · exact ⟨tl, List.mem_cons_self _ _, h1, h2⟩
      · simp only [wait_for, if_pos h1, if_neg h2] at h
        obtain ⟨x, hx, hx1, hx2⟩ := ih h
        exact ⟨x, List.mem_cons_of_mem _ hx, hx1, hx2⟩
    · simp only [wait_for, if_neg h1] at h
      exact absurd h (by simp)

lemma wait_found_of_exists {now t : Nat} {e : String} :
    ∀ {input : List TimedLine}, Chrono input →
      (∃ tl ∈ input, tl.arrival < now + t ∧ pyStrip tl.line = e) →
      (wait_for now t e input).found = true := by
  intro input
  induction input with
  | nil => intro _ h; simp at h
  | cons tl rest ih =>
    intro hc h
    obtain ⟨x, hx, hx1, hx2⟩ := h
    rw [Chrono, List.pairwise_cons] at hc
    by_cases h1 : tl.arrival < now + t
    · by_cases h2 : pyStrip tl.line = e
      · simp only [wait_for, if_pos h1, if_pos h2]
      · have hxr : x ∈ rest := by
          rcases List.mem_cons.mp hx with rfl | hr
          · exact absurd hx2 h2
          · exact hr
        simp only [wait_for, if_pos h1, if_neg h2]
        exact ih hc.2 ⟨x, hxr, hx1, hx2⟩
    · exfalso
      rcases List.mem_cons.mp hx with rfl | hr
      · exact h1 hx1
      · exact h1 (lt_of_le_of_lt (hc.1 x hr) hx1)

lemma wait_fail_time {now t : Nat} {e : String} :
    ∀ {input : List TimedLine}, (wait_for now t e input).found = false →
      (wait_for now t e input).time = now + t := by
  intro input
  induction input with
  | nil => intro _; rfl
  | cons tl rest ih =>
    intro h
    by_cases h1 : tl.arrival < now + t
    · by_cases h2 : pyStrip tl.line = e
      · simp only [wait_for, if_pos h1, if_pos h2] at h
        exact absurd h (by simp)
      · simp only [wait_for, if_pos h1, if_neg h2] at h ⊢
        exact ih h
    · simp only [wait_for, if_neg h1]

lemma wait_fail_rest {now t : Nat} {e : String} :
    ∀ {input : List TimedLine}, Chrono input →
      (wait_for now t e input).found = false →
      ∀ tl ∈ (wait_for now t e input).rest, ¬ tl.arrival < now + t := by
  intro input
  induction input with
  | nil => intro _ _ tl htl; simp [wait_for] at htl
  | cons hd rest ih =>
    intro hc h
    rw [Chrono, List.pairwise_cons] at hc
    by_cases h1 : hd.arrival < now + t
    · by_cases h2 : pyStrip hd.line = e
      · simp only [wait_for, if_pos h1, if_pos h2] at h
        exact absurd h (by simp)
      · simp only [wait_for, if_pos h1, if_neg h2] at h ⊢
        exact ih hc.2 h
    · simp only [wait_for, if_neg h1]
      intro tl htl
      rcases List.mem_cons.mp htl with rfl | hr
      · exact h1
      · intro hlt
        exact h1 (lt_of_le_of_lt (hc.1 tl hr) hlt)

lemma wait_no_match {now t : Nat} {e : String} {input : List TimedLine}
    (h : ∀ tl ∈ input, pyStrip tl.line ≠ e) :
    (wait_for now t e input).found = false := by
  cases hf : (wait_for now t e input).found
  · rfl
  · obtain ⟨x, hx, _, hx2⟩ := wait_found_exists hf
    exact absurd hx2 (h x hx)

lemma dropWhile_arrival_eq_self {now : Nat} {input : List TimedLine}
    (h : ∀ tl ∈ input, now ≤ tl.arrival) :
    input.dropWhile (fun tl => tl.arrival < now) = input := by
  cases input with
  | nil => rfl
  | cons tl rest =>
    have hn : ¬ (tl.arrival < now) := not_lt.mpr (h tl (List.mem_cons_self _ _))
    simp [List.dropWhile_cons, hn]

/-- C6: wait_for repeatedly reads stripped lines and returns true exactly
when a line equal to the expected token arrives strictly before the
deadline `now + timeout` (for a chronologically ordered channel); on
timeout it returns false exactly at the deadline, having consumed every
line that was available inside the window; and the sfv2 variant, which
first discards the input buffered before the call, agrees with it whenever
no line predates the call. Decode errors cannot end the wait because
decode(errors=ignore) never raises. -/
theorem C6_wait_for_contract (now timeout : Nat) (tok : String) (input : List TimedLine)
    (hc : Chrono input) :
    ((wait_for now timeout tok input).found = true ↔
      ∃ tl ∈ input, tl.arrival < now + timeout ∧ pyStrip tl.line = tok) ∧
    ((wait_for now timeout tok input).found = false →
      (wait_for now timeout tok input).time = now + timeout ∧
      ∀ tl ∈ (wait_for now timeout tok input).rest, ¬ tl.arrival < now + timeout) ∧
    ((∀ tl ∈ input, now ≤ tl.arrival) →
      wait_for_reset now timeout tok input = wait_for now timeout tok input) := by
  refine ⟨⟨fun h => wait_found_exists h, fun h => wait_found_of_exists hc h⟩,
    fun h => ⟨wait_fail_time h, wait_fail_rest hc h⟩, fun h => ?_⟩
  rw [wait_for_reset, dropWhile_arrival_eq_self h]

/-- C6 witness: a concrete two-line channel where the token arrives inside
the window. -/
theorem C6_wait_for_contract_witness :
    (wait_for 0 10 "GO" [⟨1, " x "⟩, ⟨2, " GO "⟩]).found = true :=
  (C6_wait_for_contract 0 10 "GO" [⟨1, " x "⟩, ⟨2, " GO "⟩] (by decide)).1.mpr (by decide)

/-! Lemmas about the chunking discipline. -/

lemma chunksOfF_nil_of_le {p : List Nat} {c offset : Nat} (h : p.length ≤ offset) :
    ∀ fuel, chunksOfF fuel p c offset = [] := by
  intro fuel
  cases fuel with
  | zero => rfl
  | succ f => simp [chunksOfF, Nat.not_lt.mpr h]

lemma chunksOfF_flat {c : Nat} (hc : 0 < c) {p : List Nat} :
    ∀ {f o : Nat}, p.length - o ≤ f →
      flat (chunksOfF f p c o) = p.drop o := by
  intro fuel
  induction fuel with
  | zero =>
    intro offset hb
    rw [chunksOfF_nil_of_le (by omega)]
    simp [flat, List.drop_eq_nil_of_le (by omega : p.length ≤ offset)]
  | succ f ih =>
    intro offset hb
    by_cases h : offset < p.length
    · have he : offset < min (offset + c) p.length := by omega
      have hee : min (offset + c) p.length ≤ p.length := by omega
      simp only [chunksOfF, if_pos h]
      have hrec := ih (o := min (offset + c) p.length) (by omega)
      show ((p.drop offset).take (min (offset + c) p.length - offset)) ++
          flat (chunksOfF f p c (min (offset + c) p.length)) = p.drop offset
      rw [hrec]
      have hdd : p.drop (min (offset + c) p.length) =
          (p.drop offset).drop (min (offset + c) p.length - offset) := by
        rw [List.drop_drop]
        congr 1
        omega
      rw [hdd, List.take_append_drop]
    · rw [chunksOfF_nil_of_le (by omega)]
      simp [flat, List.drop_eq_nil_of_le (by omega : p.length ≤ offset)]

lemma numChunks_zero (c : Nat) : numChunks 0 c = 0 := by
  rcases Nat.eq_zero_or_pos c with rfl | hc
  · rfl
  · exact Nat.div_eq_of_lt (by omega)

lemma numChunks_pos {n c : Nat} (hc : 0 < c) (hn : 0 < n) : 0 < numChunks n c :=
  Nat.div_pos (by omega) hc

lemma numChunks_succ {n c o : Nat} (hc : 0 < c) (h : o < n) :
    numChunks (n - min (o + c) n) c + 1 = numChunks (n - o) c := by
  rcases le_total (o + c) n with hle | hle
  · rw [min_eq_left hle]
    unfold numChunks
    have h1 : n - (o + c) + c - 1 = n - o - 1 := by omega
    have h2 : n - o + c - 1 = (n - o - 1) + c := by omega
    rw [h1, h2, Nat.add_div_right _ hc]
  · rw [min_eq_right hle, Nat.sub_self, numChunks_zero]
    unfold numChunks
    have h2 : n - o + c - 1 = (n - o - 1) + c := by omega
    rw [h2, Nat.add_div_right _ hc, Nat.div_eq_of_lt (by omega)]

lemma chunksOfF_length {c : Nat} (hc : 0 < c) {p : List Nat} :
    ∀ {f o : Nat}, p.length - o ≤ f →
      (chunksOfF f p c o).length = numChunks (p.length - o) c := by
  intro fuel
  induction fuel with
  | zero =>
    intro offset hb
    rw [chunksOfF_nil_of_le (by omega)]
    have : p.length - offset = 0 := by omega
    rw [this, numChunks_zero]
    rfl
  | succ f ih =>
    intro offset hb
    by_cases h : offset < p.length
    · have he : offset < min (offset + c) p.length := by omega
      simp only [chunksOfF, if_pos h, List.length_cons]
      rw [ih (o := min (offset + c) p.length) (by omega)]
      exact numChunks_succ hc h
    · rw [chunksOfF_nil_of_le (by omega)]
      have : p.length - offset = 0 := by omega
      rw [this, numChunks_zero]
      rfl

lemma chunksOfF_mem {c : Nat} (hc : 0 < c) {p : List Nat} :
    ∀ {f o : Nat}, ∀ ch ∈ chunksOfF f p c o,
      0 < ch.length ∧ ch.length ≤ c := by
  intro fuel
  induction fuel with
  | zero => intro offset ch hch; simp [chunksOfF] at hch
  | succ f ih =>
    intro offset ch hch
    by_cases h : offset < p.length
    · simp only [chunksOfF, if_pos h] at hch
      rcases List.mem_cons.mp hch with rfl | hr
      · constructor <;> simp [List.length_take, List.length_drop] <;> omega
      · exact ih _ hr
    · simp [chunksOfF, if_neg h] at hch

lemma chunksOfF_dropLast {c : Nat} (hc : 0 < c) {p : List Nat} :
    ∀ {f o : Nat}, ∀ ch ∈ (chunksOfF f p c o).dropLast,
      ch.length = c := by
  intro fuel
  induction fuel with
  | zero => intro offset ch hch; simp [chunksOfF] at hch
  | succ f ih =>
    intro offset ch hch
    by_cases h : offset < p.length
    · simp only [chunksOfF, if_pos h] at hch
      rcases hrest : chunksOfF f p c (min (offset + c) p.length) with _ | ⟨r0, rtail⟩
      · rw [hrest] at hch
        simp at hch
      · rw [hrest] at hch
        rw [List.dropLast_cons_of_ne_nil (by simp)] at hch
        rcases List.mem_cons.mp hch with rfl | hr
        · have hlt : min (offset + c) p.length < p.length := by
            by_contra hge
            have : p.length ≤ min (offset + c) p.length := by omega
            rw [chunksOfF_nil_of_le this] at hrest
            exact absurd hrest (by simp)
          have he : min (offset + c) p.length = offset + c := by omega
          simp [List.length_take, List.length_drop]
          omega
        · rw [← hrest] at hr
          exact ih _ hr
    · simp [chunksOfF, if_neg h] at hch

/-- C2: the chunk sequence covers the payload exactly once in ascending
offset order (concatenating it in order rebuilds the payload), has
ceil(length / c) chunks written as (length + c - 1) / c, every chunk except
possibly the last has length exactly c and every chunk is nonempty of
length at most c; and a 600-byte payload at chunk size 256 yields the
slices at offsets 0, 256 and 512 of lengths 256, 256 and 88. -/
theorem C2_chunking (p : List Nat) (c : Nat) (hc : 0 < c) :
    flat (chunks_of p c) = p ∧
    (chunks_of p c).length = numChunks p.length c ∧
    (∀ ch ∈ (chunks_of p c).dropLast, ch.length = c) ∧
    (∀ ch ∈ chunks_of p c, 0 < ch.length ∧ ch.length ≤ c) ∧
    (chunks_of (List.replicate 600 0) 256).map List.length = [256, 256, 88] ∧
    chunks_of (List.replicate 600 0) 256 =
      [(List.replicate 600 0).take 256, ((List.replicate 600 0).drop 256).take 256,
        (List.replicate 600 0).drop 512] := by
  refine ⟨?_, ?_, ?_, ?_, by decide, by decide⟩
  · have h := chunksOfF_flat hc (p := p) (f := p.length) (o := 0) (by omega)
    simpa [chunks_of] using h
  · have h := chunksOfF_length hc (p := p) (f := p.length) (o := 0) (by omega)
    simpa [chunks_of] using h
  · exact fun ch hch => chunksOfF_dropLast hc _ hch
  · exact fun ch hch => chunksOfF_mem hc _ hch

/-- C2 witness: the chunking contract at a concrete payload and chunk size. -/
theorem C2_chunking_witness : flat (chunks_of [1, 2, 3] 2) = [1, 2, 3] :=
  (C2_chunking [1, 2, 3] 2 (by decide)).1

/-! Lemmas about the chunk-sending loop. -/

lemma waitIter_shift (tok : String) (s : Nat × List TimedLine) :
    ∀ j, waitIter tok s (j + 1) = waitIter tok (waitStep tok s) j := by
  intro j
  induction j with
  | zero => rfl
  | succ k ih =>
    show waitStep tok (waitIter tok s (k + 1)) = waitStep tok (waitIter tok (waitStep tok s) k)
    rw [ih]

lemma ackFound_shift (s : Nat × List TimedLine) (j : Nat) :
    ackFound s (j + 1) = ackFound (waitStep "ACK" s) j := by
  rw [ackFound, ackFound, waitIter_shift]

lemma payloadChunks_cons_chunk (o : Nat) (b : List Nat) (l : List Event) :
    payloadChunks (Event.writeChunk o b :: l) = b :: payloadChunks l := by
  simp [payloadChunks]

lemma payloadChunks_cons_tok (tok : String) (t : Nat) (l : List Event) :
    payloadChunks (Event.tokenObserved tok t :: l) = payloadChunks l := by
  simp [payloadChunks]

lemma payloadChunks_cons_timeout (tok : String) (t : Nat) (l : List Event) :
    payloadChunks (Event.waitTimeout tok t :: l) = payloadChunks l := by
  simp [payloadChunks]

lemma payloadChunks_cons_header (s : String) (l : List Event) :
    payloadChunks (Event.writeHeader s :: l) = payloadChunks l := by
  simp [payloadChunks]

lemma payloadChunks_append (l1 l2 : List Event) :
    payloadChunks (l1 ++ l2) = payloadChunks l1 ++ payloadChunks l2 := by
  simp [payloadChunks, List.filterMap_append]

lemma sendChunksF_success {data : List Nat} :
    ∀ {f o t : Nat} {l : List TimedLine},
      data.length - o ≤ f →
      (∀ j < numChunks (data.length - o) CHUNK_SIZE, ackFound (t, l) j = true) →
      (sendChunksF f data o t l).ok = true ∧
      payloadChunks (sendChunksF f data o t l).events =
        chunksOfF f data CHUNK_SIZE o ∧
      ((sendChunksF f data o t l).time,
        (sendChunksF f data o t l).rest) =
        waitIter "ACK" (t, l) (numChunks (data.length - o) CHUNK_SIZE) := by
  intro fuel
  induction fuel with
  | zero =>
    intro offset now input hb _
    have h0 : data.length - offset = 0 := by omega
    rw [h0, numChunks_zero]
    exact ⟨rfl, rfl, rfl⟩
  | succ f ih =>
    intro offset now input hb hacks
    by_cases h : offset < data.length
    · have hM : 0 < numChunks (data.length - offset) CHUNK_SIZE :=
        numChunks_pos (by decide) (by omega)
      have hw : (wait_for now ACK_TIMEOUT "ACK" input).found = true := hacks 0 hM
      have he : offset < min (offset + CHUNK_SIZE) data.length := by
        have : 0 < CHUNK_SIZE := by decide
        omega
      have hacks' : ∀ j < numChunks (data.length - min (offset + CHUNK_SIZE) data.length)
          CHUNK_SIZE,
          ackFound ((wait_for now ACK_TIMEOUT "ACK" input).time,
            (wait_for now ACK_TIMEOUT "ACK" input).rest) j = true := by
        intro j hj
        have hs := numChunks_succ (n := data.length) (c := CHUNK_SIZE) (o := offset)
          (by decide) h
        have hj' : j + 1 < numChunks (data.length - offset) CHUNK_SIZE := by omega
        have hh := hacks (j + 1) hj'
        rw [ackFound_shift] at hh
        exact hh
      obtain ⟨hok, hchunks, hstate⟩ := ih (o := min (offset + CHUNK_SIZE) data.length)
        (by omega) hacks'
      simp only [sendChunksF, if_pos h]
      rw [if_pos hw]
      refine ⟨hok, ?_, ?_⟩
      · rw [payloadChunks_cons_chunk, payloadChunks_cons_tok, hchunks]
        simp only [chunksOfF, if_pos h]
      · have hs := numChunks_succ (n := data.length) (c := CHUNK_SIZE) (o := offset) (by decide) h
        rw [← hs, waitIter_shift]
        exact hstate
    · have h0 : data.length - offset = 0 := by omega
      have hred : sendChunksF (f + 1) data offset now input = ⟨true, [], now, input⟩ := by
        simp [sendChunksF, h]
      rw [hred, h0, numChunks_zero, chunksOfF_nil_of_le (Nat.le_of_not_lt h) (f + 1)]
      exact ⟨rfl, rfl, rfl⟩

lemma sendChunksF_fail {data : List Nat} :
    ∀ {f o t k : Nat} {l : List TimedLine},
      data.length - o ≤ f →
      k < numChunks (data.length - o) CHUNK_SIZE →
      (∀ j < k, ackFound (t, l) j = true) →
      ackFound (t, l) k = false →
      (sendChunksF f data o t l).ok = false ∧
      payloadChunks (sendChunksF f data o t l).events =
        (chunksOfF f data CHUNK_SIZE o).take (k + 1) ∧
      (sendChunksF f data o t l).time =
        (waitIter "ACK" (t, l) k).1 + ACK_TIMEOUT := by
  intro fuel
  induction fuel with
  | zero =>
    intro offset now k input hb hk _ _
    have h0 : data.length - offset = 0 := by omega
    rw [h0, numChunks_zero] at hk
    exact absurd hk (Nat.not_lt_zero k)
  | succ f ih =>
    intro offset now k input hb hk hacks hfail
    by_cases h : offset < data.length
    · cases k with
      | zero =>
        have hw : (wait_for now ACK_TIMEOUT "ACK" input).found = false := hfail
        have hnw : ¬ ((wait_for now ACK_TIMEOUT "ACK" input).found = true) := by
          rw [hw]; simp
        simp only [sendChunksF, if_pos h]
        rw [if_neg hnw]
        refine ⟨rfl, ?_, ?_⟩
        · rw [payloadChunks_cons_chunk, payloadChunks_cons_timeout]
          simp only [chunksOfF, if_pos h]
          rfl
        · exact wait_fail_time hw
      | succ k' =>
        have hw : (wait_for now ACK_TIMEOUT "ACK" input).found = true :=
          hacks 0 (Nat.succ_pos k')
        have hs := numChunks_succ (n := data.length) (c := CHUNK_SIZE) (o := offset) (by decide) h
        have hk' : k' < numChunks (data.length - min (offset + CHUNK_SIZE) data.length)
            CHUNK_SIZE := by omega
        have he : offset < min (offset + CHUNK_SIZE) data.length := by
          have : 0 < CHUNK_SIZE := by decide
          omega
        have hacks' : ∀ j < k',
            ackFound ((wait_for now ACK_TIMEOUT "ACK" input).time,
              (wait_for now ACK_TIMEOUT "ACK" input).rest) j = true := by
          intro j hj
          have hh := hacks (j + 1) (by omega)
          rw [ackFound_shift] at hh
          exact hh
        have hfail' : ackFound ((wait_for now ACK_TIMEOUT "ACK" input).time,
            (wait_for now ACK_TIMEOUT "ACK" input).rest) k' = false := by
          have hh := hfail
          rw [ackFound_shift] at hh
          exact hh
        obtain ⟨hok, hchunks, htime⟩ := ih (o := min (offset + CHUNK_SIZE) data.length)
          (by omega) hk' hacks' hfail'
        simp only [sendChunksF, if_pos h]
        rw [if_pos hw]
        refine ⟨hok, ?_, ?_⟩
        · rw [payloadChunks_cons_chunk, payloadChunks_cons_tok, hchunks]
          simp only [chunksOfF, if_pos h, List.take_succ_cons]
        · rw [htime, waitIter_shift]
          rfl
    · have h0 : data.length - offset = 0 := by omega
      rw [h0, numChunks_zero] at hk
      exact absurd hk (Nat.not_lt_zero k)

lemma sendChunksF_ok_acks {data : List Nat} {f o t : Nat} {l : List TimedLine}
    (hb : data.length - o ≤ f)
    (hok : (sendChunksF f data o t l).ok = true) :
    ∀ j < numChunks (data.length - o) CHUNK_SIZE, ackFound (t, l) j = true := by
  by_contra hnot
  push_neg at hnot
  obtain ⟨j, hj, hfj⟩ := hnot
  have hex : ∃ m, m < numChunks (data.length - o) CHUNK_SIZE ∧
      ackFound (t, l) m = false := ⟨j, hj, by simpa using hfj⟩
  have hk := Nat.find_spec hex
  have hmin : ∀ i < Nat.find hex, ackFound (t, l) i = true := by
    intro i hi
    have hnp := Nat.find_min hex hi
    by_contra hci
    exact hnp ⟨lt_trans hi hk.1, by simpa using hci⟩
  have hf := sendChunksF_fail hb hk.1 hmin hk.2
  rw [hf.1] at hok
  exact absurd hok (by simp)

lemma sendChunksF_offsets_ge {data : List Nat} :
    ∀ {fuel offset now : Nat} {input : List TimedLine},
      ∀ o ∈ chunkOffsets (sendChunksF fuel data offset now input).events, offset ≤ o := by
  intro fuel
  induction fuel with
  | zero => intro offset now input o ho; simp [sendChunksF, chunkOffsets] at ho
  | succ f ih =>
    intro offset now input o ho
    by_cases h : offset < data.length
    · simp only [sendChunksF, if_pos h] at ho
      by_cases hw : (wait_for now ACK_TIMEOUT "ACK" input).found = true
      · rw [if_pos hw] at ho
        simp only [chunkOffsets, List.filterMap_cons] at ho
        rcases List.mem_cons.mp ho with rfl | hr
        · exact le_refl o
        · have := ih _ hr
          have he : offset < min (offset + CHUNK_SIZE) data.length := by
            have : 0 < CHUNK_SIZE := by decide
            omega
          omega
      · rw [if_neg hw] at ho
        simp only [chunkOffsets, List.filterMap_cons] at ho
        rcases List.mem_cons.mp ho with rfl | hr
        · exact le_refl o
        · simp at hr
    · simp [sendChunksF, if_neg h, chunkOffsets] at ho

lemma sendChunksF_pairwise {data : List Nat} :
    ∀ {fuel offset now : Nat} {input : List TimedLine},
      List.Pairwise (fun a b => a < b)
        (chunkOffsets (sendChunksF fuel data offset now input).events) := by
  intro fuel
  induction fuel with
  | zero => intro offset now input; simp [sendChunksF, chunkOffsets]
  | succ f ih =>
    intro offset now input
    by_cases h : offset < data.length
    · simp only [sendChunksF, if_pos h]
      by_cases hw : (wait_for now ACK_TIMEOUT "ACK" input).found = true
      · rw [if_pos hw]
        simp only [chunkOffsets, List.filterMap_cons]
        refine List.Pairwise.cons ?_ ih
        intro o ho
        have hge := sendChunksF_offsets_ge _ ho
        have he : offset < min (offset + CHUNK_SIZE) data.length := by
          have : 0 < CHUNK_SIZE := by decide
          omega
        omega
      · rw [if_neg hw]
        simp [chunkOffsets]
    · simp [sendChunksF, if_neg h, chunkOffsets]

lemma chunkAckSeq_cons_chunk (o : Nat) (b : List Nat) (l : List Event) :
    chunkAckSeq (Event.writeChunk o b :: l) = Event.writeChunk o b :: chunkAckSeq l := by
  simp [chunkAckSeq, isChunkWrite]

lemma chunkAckSeq_cons_ack (t : Nat) (l : List Event) :
    chunkAckSeq (Event.tokenObserved "ACK" t :: l) =
      Event.tokenObserved "ACK" t :: chunkAckSeq l := by
  simp [chunkAckSeq, isChunkWrite, isAckObserved]

lemma altOk_cons_pair (o : Nat) (b : List Nat) (t : Nat) (l : List Event) :
    altOk (Event.writeChunk o b :: Event.tokenObserved "ACK" t :: l) = altOk l := by
  simp [altOk, isChunkWrite, isAckObserved]

lemma sendChunksF_alt {data : List Nat} :
    ∀ {fuel offset now : Nat} {input : List TimedLine},
      altOk (chunkAckSeq (sendChunksF fuel data offset now input).events) = true := by
  intro fuel
  induction fuel with
  | zero => intro offset now input; rfl
  | succ f ih =>
    intro offset now input
    by_cases h : offset < data.length
    · simp only [sendChunksF, if_pos h]
      by_cases hw : (wait_for now ACK_TIMEOUT "ACK" input).found = true
      · rw [if_pos hw]
        rw [chunkAckSeq_cons_chunk, chunkAckSeq_cons_ack, altOk_cons_pair]
        exact ih
      · rw [if_neg hw]
        rfl
    · simp [sendChunksF, if_neg h, chunkAckSeq, altOk]

/-! Payload byte accounting and the full send characterisation. -/

lemma flat_length (L : List (List Nat)) : (flat L).length = (L.map List.length).sum := by
  induction L with
  | nil => rfl
  | cons a l ih =>
    show (a ++ flat l).length = a.length + (l.map List.length).sum
    rw [List.length_append, ih]

lemma chunks_total (data : List Nat) :
    ((chunks_of data CHUNK_SIZE).map List.length).sum = data.length := by
  rw [← flat_length]
  have h := chunksOfF_flat (c := CHUNK_SIZE) (by decide) (p := data) (f := data.length)
    (o := 0) (by omega)
  rw [show chunks_of data CHUNK_SIZE = chunksOfF data.length data CHUNK_SIZE 0 from rfl, h]
  simp

lemma payloadBytes_wrap_tok (hdr : String) (t1 t2 : Nat) (evs : List Event) :
    payloadBytes (Event.writeHeader hdr :: Event.tokenObserved "READY" t1 ::
      evs ++ [Event.tokenObserved "DONE" t2]) = payloadBytes evs := by
  rw [payloadBytes, payloadBytes, payloadChunks_append, payloadChunks_cons_header,
    payloadChunks_cons_tok]
  simp [payloadChunks]

lemma payloadBytes_wrap_timeout (hdr : String) (t1 t2 : Nat) (evs : List Event) :
    payloadBytes (Event.writeHeader hdr :: Event.tokenObserved "READY" t1 ::
      evs ++ [Event.waitTimeout "DONE" t2]) = payloadBytes evs := by
  rw [payloadBytes, payloadBytes, payloadChunks_append, payloadChunks_cons_header,
    payloadChunks_cons_tok]
  simp [payloadChunks]

lemma payloadBytes_wrap_bare (hdr : String) (t1 : Nat) (evs : List Event) :
    payloadBytes (Event.writeHeader hdr :: Event.tokenObserved "READY" t1 :: evs) =
      payloadBytes evs := by
  rw [payloadBytes, payloadBytes, payloadChunks_cons_header, payloadChunks_cons_tok]

/-- C1: a send succeeds exactly when the peer delivers READY inside its
window, then one ACK inside its window after each of the
numChunks chunks in order, then DONE inside its window; on success the
payload bytes written (header and tokens excluded) equal the total length;
and when every chunk is ACKed but DONE never arrives, the send still fails
even though every payload byte was already written. -/
theorem C1_send_success_characterisation (data : List Nat) (id : String) (now : Nat)
    (input : List TimedLine) :
    ((send_data_via_serial now data id input).ok = true ↔
      ((wait_for now ACK_TIMEOUT "READY" input).found = true ∧
        (∀ j < numChunks data.length CHUNK_SIZE, ackFound (afterReady now input) j = true) ∧
        (doneWait now input data.length).found = true)) ∧
    ((send_data_via_serial now data id input).ok = true →
      payloadBytes (send_data_via_serial now data id input).events = data.length) ∧
    ((wait_for now ACK_TIMEOUT "READY" input).found = true →
      (∀ j < numChunks data.length CHUNK_SIZE, ackFound (afterReady now input) j = true) →
      (doneWait now input data.length).found = false →
      (send_data_via_serial now data id input).ok = false ∧
      payloadBytes (send_data_via_serial now data id input).events = data.length) := by
  by_cases hr : (wait_for now ACK_TIMEOUT "READY" input).found = true
  · by_cases hacks : ∀ j < numChunks data.length CHUNK_SIZE,
        ackFound (afterReady now input) j = true
    · obtain ⟨hok, hchunks, hstate⟩ :=
        sendChunksF_success (f := data.length - 0) (o := 0)
          (t := (wait_for now ACK_TIMEOUT "READY" input).time)
          (l := (wait_for now ACK_TIMEOUT "READY" input).rest) (le_refl _) hacks
      have hok' : (sendChunks data 0 (wait_for now ACK_TIMEOUT "READY" input).time
          (wait_for now ACK_TIMEOUT "READY" input).rest).ok = true := hok
      have hbytes : payloadBytes (sendChunks data 0
          (wait_for now ACK_TIMEOUT "READY" input).time
          (wait_for now ACK_TIMEOUT "READY" input).rest).events = data.length := by
        rw [payloadBytes]
        have hch : payloadChunks (sendChunks data 0
            (wait_for now ACK_TIMEOUT "READY" input).time
            (wait_for now ACK_TIMEOUT "READY" input).rest).events =
            chunks_of data CHUNK_SIZE := hchunks
        rw [hch]
        exact chunks_total data
      have ht : (sendChunks data 0 (wait_for now ACK_TIMEOUT "READY" input).time
          (wait_for now ACK_TIMEOUT "READY" input).rest).time =
          (waitIter "ACK" (afterReady now input) (numChunks data.length CHUNK_SIZE)).1 :=
        congrArg Prod.fst hstate
      have hrst : (sendChunks data 0 (wait_for now ACK_TIMEOUT "READY" input).time
          (wait_for now ACK_TIMEOUT "READY" input).rest).rest =
          (waitIter "ACK" (afterReady now input) (numChunks data.length CHUNK_SIZE)).2 :=
        congrArg Prod.snd hstate
      simp only [send_data_via_serial]
      rw [if_pos hr, if_pos hok', ht, hrst]
      by_cases hd : (wait_for (waitIter "ACK" (afterReady now input)
          (numChunks data.length CHUNK_SIZE)).1 ACK_TIMEOUT "DONE"
          (waitIter "ACK" (afterReady now input) (numChunks data.length CHUNK_SIZE)).2).found
          = true
      · have hdD : (doneWait now input data.length).found = true := hd
        rw [if_pos hd]
        refine ⟨⟨fun _ => ⟨hr, hacks, hdD⟩, fun _ => rfl⟩, ?_, ?_⟩
        · intro _
          rw [payloadBytes_wrap_tok]
          exact hbytes
        · intro _ _ h3
          rw [hdD] at h3
          exact absurd h3 (by simp)
      · have hdD : (doneWait now input data.length).found = false := by
          cases hx : (doneWait now input data.length).found
          · rfl
          · exact absurd hx hd
        rw [if_neg hd]
        refine ⟨⟨fun hfalse => absurd hfalse (by simp), ?_⟩, fun hfalse => absurd hfalse (by simp),
          ?_⟩
        · rintro ⟨_, _, hdo⟩
          rw [hdD] at hdo
          exact absurd hdo (by simp)
        · intro _ _ _
          refine ⟨rfl, ?_⟩
          rw [payloadBytes_wrap_timeout]
          exact hbytes
    · have hnok : (sendChunks data 0 (wait_for now ACK_TIMEOUT "READY" input).time
          (wait_for now ACK_TIMEOUT "READY" input).rest).ok = false := by
        cases hx : (sendChunks data 0 (wait_for now ACK_TIMEOUT "READY" input).time
            (wait_for now ACK_TIMEOUT "READY" input).rest).ok
        · rfl
        · exact absurd (sendChunksF_ok_acks (f := data.length - 0) (o := 0)
            (le_refl _) hx) hacks
      have hnok' : ¬ ((sendChunks data 0 (wait_for now ACK_TIMEOUT "READY" input).time
          (wait_for now ACK_TIMEOUT "READY" input).rest).ok = true) := by
        rw [hnok]; simp
      simp only [send_data_via_serial]
      rw [if_pos hr, if_neg hnok']
      refine ⟨⟨fun hfalse => absurd hfalse (by simp), ?_⟩, fun hfalse => absurd hfalse (by simp),
        ?_⟩
      · rintro ⟨_, hja, _⟩
        exact absurd hja hacks
      · intro _ hja _
        exact absurd hja hacks
  · simp only [send_data_via_serial]
    rw [if_neg hr]
    refine ⟨⟨fun hfalse => absurd hfalse (by simp), ?_⟩, fun hfalse => absurd hfalse (by simp),
      ?_⟩
    · rintro ⟨hrt, _, _⟩
      exact absurd hrt hr
    · intro hrt _ _
      exact absurd hrt hr

/-- C1 witness: a compliant peer for a one-chunk payload makes the send
succeed with exactly one payload byte written. -/
theorem C1_send_success_characterisation_witness :
    (send_data_via_serial 0 [42] "id" [⟨0, "READY"⟩, ⟨1, "ACK"⟩, ⟨2, "DONE"⟩]).ok = true ∧
    payloadBytes (send_data_via_serial 0 [42] "id"
      [⟨0, "READY"⟩, ⟨1, "ACK"⟩, ⟨2, "DONE"⟩]).events = 1 := by
  have h := C1_send_success_characterisation [42] "id" 0 [⟨0, "READY"⟩, ⟨1, "ACK"⟩, ⟨2, "DONE"⟩]
  refine ⟨h.1.mpr (by decide), h.2.1 (by decide)⟩

/-! Remaining claim theorems. -/

/-- C3: when the peer never sends READY, the send fails, exactly the header
(and nothing else) has been written, zero payload bytes are on the channel,
and the failure happens exactly one timeout window (10 seconds) after the
call started. -/
theorem C3_no_ready (now : Nat) (data : List Nat) (id : String) (input : List TimedLine)
    (h : ∀ tl ∈ input, pyStrip tl.line ≠ "READY") :
    (send_data_via_serial now data id input).ok = false ∧
    (send_data_via_serial now data id input).events =
      [Event.writeHeader (build_header id data.length),
        Event.waitTimeout "READY" (now + ACK_TIMEOUT)] ∧
    payloadBytes (send_data_via_serial now data id input).events = 0 ∧
    (send_data_via_serial now data id input).time = now + ACK_TIMEOUT ∧
    ACK_TIMEOUT = 10 := by
  have hw : (wait_for now ACK_TIMEOUT "READY" input).found = false := wait_no_match h
  have hnw : ¬ ((wait_for now ACK_TIMEOUT "READY" input).found = true) := by
    rw [hw]; simp
  have htime := wait_fail_time hw
  simp only [send_data_via_serial]
  rw [if_neg hnw]
  refine ⟨rfl, ?_, by simp [payloadBytes, payloadChunks], ?_, rfl⟩
  · rw [htime]
  · exact htime

/-- C3 witness: a peer that only sends noise. -/
theorem C3_no_ready_witness :
    (send_data_via_serial 0 [1, 2] "id7" [⟨3, "noise"⟩]).ok = false ∧
    (send_data_via_serial 0 [1, 2] "id7" [⟨3, "noise"⟩]).events =
      [Event.writeHeader (build_header "id7" 2), Event.waitTimeout "READY" 10] ∧
    payloadBytes (send_data_via_serial 0 [1, 2] "id7" [⟨3, "noise"⟩]).events = 0 ∧
    (send_data_via_serial 0 [1, 2] "id7" [⟨3, "noise"⟩]).time = 10 ∧
    ACK_TIMEOUT = 10 :=
  C3_no_ready 0 [1, 2] "id7" [⟨3, "noise"⟩] (by decide)

/-- C4: when the ACK wait for the chunk of index k (byte offset
k * CHUNK_SIZE) times out after all earlier ACKs arrived, the send fails at
that point: exactly the chunks of indices 0 up to k were written, each
once, in order, with none retried and none beyond k ever written, and the
call returns one timeout window after that ACK wait began. -/
theorem C4_ack_timeout (data : List Nat) (id : String) (now : Nat) (input : List TimedLine)
    (k : Nat)
    (hready : (wait_for now ACK_TIMEOUT "READY" input).found = true)
    (hk : k < numChunks data.length CHUNK_SIZE)
    (hacks : ∀ j < k, ackFound (afterReady now input) j = true)
    (hfail : ackFound (afterReady now input) k = false) :
    (send_data_via_serial now data id input).ok = false ∧
    payloadChunks (send_data_via_serial now data id input).events =
      (chunks_of data CHUNK_SIZE).take (k + 1) ∧
    (send_data_via_serial now data id input).time =
      (waitIter "ACK" (afterReady now input) k).1 + ACK_TIMEOUT := by
  obtain ⟨hok, hchunks, htime⟩ := sendChunksF_fail (f := data.length - 0)
    (o := 0) (t := (wait_for now ACK_TIMEOUT "READY" input).time)
    (l := (wait_for now ACK_TIMEOUT "READY" input).rest) (k := k) (le_refl _) hk hacks hfail
  have hnok' : ¬ ((sendChunks data 0 (wait_for now ACK_TIMEOUT "READY" input).time
      (wait_for now ACK_TIMEOUT "READY" input).rest).ok = true) := by
    have hh : (sendChunks data 0 (wait_for now ACK_TIMEOUT "READY" input).time
        (wait_for now ACK_TIMEOUT "READY" input).rest).ok = false := hok
    rw [hh]; simp
  simp only [send_data_via_serial]
  rw [if_pos hready, if_neg hnok']
  refine ⟨rfl, ?_, ?_⟩
  · rw [payloadChunks_cons_header, payloadChunks_cons_tok]
    exact hchunks
  · exact htime

/-- C4 witness: a two-chunk payload whose second ACK never arrives. -/
theorem C4_ack_timeout_witness :
    (send_data_via_serial 0 (List.replicate 300 7) "w" [⟨0, "READY"⟩, ⟨0, "ACK"⟩]).ok
      = false :=
  (C4_ack_timeout (List.replicate 300 7) "w" 0 [⟨0, "READY"⟩, ⟨0, "ACK"⟩] 1
    (by decide) (by decide) (by decide) (by decide)).1

lemma chunkAckSeq_cons_of_false {e : Event} (h : (isChunkWrite e || isAckObserved e) = false)
    (l : List Event) : chunkAckSeq (e :: l) = chunkAckSeq l := by
  simp [chunkAckSeq, List.filter_cons, h]

lemma chunkAckSeq_append (a b : List Event) :
    chunkAckSeq (a ++ b) = chunkAckSeq a ++ chunkAckSeq b := by
  simp [chunkAckSeq, List.filter_append]

lemma chunkOffsets_append (a b : List Event) :
    chunkOffsets (a ++ b) = chunkOffsets a ++ chunkOffsets b := by
  simp [chunkOffsets, List.filterMap_append]

lemma chunkOffsets_cons_header (s : String) (l : List Event) :
    chunkOffsets (Event.writeHeader s :: l) = chunkOffsets l := by
  simp [chunkOffsets]

lemma chunkOffsets_cons_tok (tok : String) (t : Nat) (l : List Event) :
    chunkOffsets (Event.tokenObserved tok t :: l) = chunkOffsets l := by
  simp [chunkOffsets]

lemma chunkOffsets_cons_timeout (tok : String) (t : Nat) (l : List Event) :
    chunkOffsets (Event.waitTimeout tok t :: l) = chunkOffsets l := by
  simp [chunkOffsets]

/-- C5: every send is strict stop-and-wait. In the trace of any send the
chunk writes and ACK observations alternate (write, ACK, write, ACK, ...),
so a chunk is only ever written after the previous chunk was acknowledged;
and the written chunk offsets are pairwise strictly increasing, so no chunk
is ever written twice. -/
theorem C5_stop_and_wait (now : Nat) (data : List Nat) (id : String)
    (input : List TimedLine) :
    altOk (chunkAckSeq (send_data_via_serial now data id input).events) = true ∧
    List.Pairwise (fun a b => a < b)
      (chunkOffsets (send_data_via_serial now data id input).events) := by
  simp only [send_data_via_serial]
  by_cases hr : (wait_for now ACK_TIMEOUT "READY" input).found = true
  · rw [if_pos hr]
    by_cases hok : (sendChunks data 0 (wait_for now ACK_TIMEOUT "READY" input).time
        (wait_for now ACK_TIMEOUT "READY" input).rest).ok = true
    · rw [if_pos hok]
      by_cases hd : (wait_for (sendChunks data 0
          (wait_for now ACK_TIMEOUT "READY" input).time
          (wait_for now ACK_TIMEOUT "READY" input).rest).time ACK_TIMEOUT "DONE"
          (sendChunks data 0 (wait_for now ACK_TIMEOUT "READY" input).time
          (wait_for now ACK_TIMEOUT "READY" input).rest).rest).found = true
      · rw [if_pos hd]
        constructor
        · rw [chunkAckSeq_append, chunkAckSeq_cons_of_false (by rfl),
            chunkAckSeq_cons_of_false (by rfl)]
          rw [show chunkAckSeq [Event.tokenObserved "DONE"
            (wait_for (sendChunks data 0 (wait_for now ACK_TIMEOUT "READY" input).time
              (wait_for now ACK_TIMEOUT "READY" input).rest).time ACK_TIMEOUT "DONE"
              (sendChunks data 0 (wait_for now ACK_TIMEOUT "READY" input).time
              (wait_for now ACK_TIMEOUT "READY" input).rest).rest).time] = [] from rfl,
            List.append_nil]
          exact sendChunksF_alt
        · rw [chunkOffsets_append, chunkOffsets_cons_header, chunkOffsets_cons_tok,
            chunkOffsets_cons_tok, show chunkOffsets ([] : List Event) = [] from rfl,
            List.append_nil]
          exact sendChunksF_pairwise
      · rw [if_neg hd]
        constructor
        · rw [chunkAckSeq_append, chunkAckSeq_cons_of_false (by rfl),
            chunkAckSeq_cons_of_false (by rfl)]
          rw [show chunkAckSeq [Event.waitTimeout "DONE"
            (wait_for (sendChunks data 0 (wait_for now ACK_TIMEOUT "READY" input).time
              (wait_for now ACK_TIMEOUT "READY" input).rest).time ACK_TIMEOUT "DONE"
              (sendChunks data 0 (wait_for now ACK_TIMEOUT "READY" input).time
              (wait_for now ACK_TIMEOUT "READY" input).rest).rest).time] = [] from rfl,
            List.append_nil]
          exact sendChunksF_alt
        · rw [chunkOffsets_append, chunkOffsets_cons_header, chunkOffsets_cons_tok,
            chunkOffsets_cons_timeout, show chunkOffsets ([] : List Event) = [] from rfl,
            List.append_nil]
          exact sendChunksF_pairwise
    · rw [if_neg hok]
      constructor
      · rw [chunkAckSeq_cons_of_false (by rfl), chunkAckSeq_cons_of_false (by rfl)]
        exact sendChunksF_alt
      · rw [chunkOffsets_cons_header, chunkOffsets_cons_tok]
        exact sendChunksF_pairwise
  · rw [if_neg hr]
    exact ⟨rfl, by simp [chunkOffsets]⟩

/-- C7: the first event of every send is the single header line built as
id, a pipe, the decimal total length and one line feed; at
id 1700000000 and total length 12345 this is exactly the literal
1700000000|12345 followed by a line feed. -/
theorem C7_header_format :
    (∀ (now : Nat) (data : List Nat) (id : String) (input : List TimedLine),
      ((send_data_via_serial now data id input).events).head? =
        some (Event.writeHeader (build_header id data.length))) ∧
    build_header "1700000000" 12345 = "1700000000|12345\n" := by
  constructor
  · intro now data id input
    simp only [send_data_via_serial]
    split
    · split
      · split
        · rfl
        · rfl
      · rfl
    · rfl
  · decide

lemma build_header_zero (id : String) : build_header id 0 = id ++ "|0\n" := by
  show id ++ "|" ++ "0" ++ "\n" = id ++ "|0\n"
  rw [String.append_assoc, String.append_assoc]
  rfl

/-- C10: an empty payload writes the header line with total length 0, writes
zero payload bytes, performs no ACK wait at all (no trace event mentions
ACK), and succeeds exactly when READY and then immediately DONE each arrive
inside their timeout windows. -/
theorem C10_empty_payload (id : String) (now : Nat) (input : List TimedLine) :
    (send_data_via_serial now [] id input).events.head? =
      some (Event.writeHeader (id ++ "|0\n")) ∧
    payloadBytes (send_data_via_serial now [] id input).events = 0 ∧
    (send_data_via_serial now [] id input).events.filter mentionsAck = [] ∧
    ((send_data_via_serial now [] id input).ok = true ↔
      ((wait_for now ACK_TIMEOUT "READY" input).found = true ∧
        (wait_for (wait_for now ACK_TIMEOUT "READY" input).time ACK_TIMEOUT "DONE"
          (wait_for now ACK_TIMEOUT "READY" input).rest).found = true)) := by
  have hb : build_header id (List.length ([] : List Nat)) = id ++ "|0\n" :=
    build_header_zero id
  by_cases hr : (wait_for now ACK_TIMEOUT "READY" input).found = true
  · have hok : (sendChunks ([] : List Nat) 0 (wait_for now ACK_TIMEOUT "READY" input).time
        (wait_for now ACK_TIMEOUT "READY" input).rest).ok = true := rfl
    have ht : (sendChunks ([] : List Nat) 0 (wait_for now ACK_TIMEOUT "READY" input).time
        (wait_for now ACK_TIMEOUT "READY" input).rest).time =
        (wait_for now ACK_TIMEOUT "READY" input).time := rfl
    have hrst : (sendChunks ([] : List Nat) 0 (wait_for now ACK_TIMEOUT "READY" input).time
        (wait_for now ACK_TIMEOUT "READY" input).rest).rest =
        (wait_for now ACK_TIMEOUT "READY" input).rest := rfl
    simp only [send_data_via_serial]
    rw [if_pos hr, if_pos hok, ht, hrst]
    by_cases hd : (wait_for (wait_for now ACK_TIMEOUT "READY" input).time ACK_TIMEOUT "DONE"
        (wait_for now ACK_TIMEOUT "READY" input).rest).found = true
    · rw [if_pos hd]
      refine ⟨by rw [hb]; rfl, ?_, rfl, ⟨fun _ => ⟨hr, hd⟩, fun _ => rfl⟩⟩
      rw [payloadBytes_wrap_tok]
      rfl
    · rw [if_neg hd]
      refine ⟨by rw [hb]; rfl, ?_, rfl, ?_⟩
      · rw [payloadBytes_wrap_timeout]
        rfl
      · constructor
        · intro hfalse
          exact absurd hfalse (by simp)
        · rintro ⟨_, hdo⟩
          exact absurd hdo hd
  · simp only [send_data_via_serial]
    rw [if_neg hr]
    refine ⟨by rw [hb]; rfl, rfl, rfl, ?_⟩
    constructor
    · intro hfalse
      exact absurd hfalse (by simp)
    · rintro ⟨hrt, _⟩
      exact absurd hrt hr

/-- C10 witness: a prompt peer for the empty payload. -/
theorem C10_empty_payload_witness :
    (send_data_via_serial 0 ([] : List Nat) "x" [⟨0, "READY"⟩, ⟨1, "DONE"⟩]).ok = true :=
  (C10_empty_payload "x" 0 [⟨0, "READY"⟩, ⟨1, "DONE"⟩]).2.2.2.mpr (by decide)

/-- C8: the dispatcher ignores empty lines, splits on whitespace runs,
compares the first token case-insensitively against foto (non-matching
lines such as hello are dropped without ever invoking the payload
producer), and parses the two optional integer fields independently, each
falling back to its own configured default with a warning on failure: foto
640 abc keeps width 640 and warns only on quality. -/
theorem C8_command_parsing :
    parseCommand "hello" = none ∧
    (∀ (producer : Int → Int → String × List Nat) (now : Nat) (input : List TimedLine),
      loopBody "hello" producer now input = (LoopCtl.cont, none)) ∧
    parseCommand "" = none ∧
    parseCommand "foto 640 abc" = some ⟨640, DEFAULT_QUALITY, false, true⟩ ∧
    parseCommand "foto abc 7" = some ⟨DEFAULT_WIDTH, 7, true, false⟩ ∧
    parseCommand "FOTO  640   abc" = some ⟨640, DEFAULT_QUALITY, false, true⟩ := by
  refine ⟨by decide, ?_, by decide, by decide, by decide, by decide⟩
  intro producer now input
  simp only [loopBody, show parseCommand "hello" = none from by decide]

/-- C9: the dispatch loop never terminates because of a recoverable error:
over any finite schedule of incoming command lines, with transfer successes
and failures alike, the loop keeps running; only a startup failure to
acquire a serial port halts the process, with exit code 1. -/
theorem C9_dispatch_loop :
    (∀ (lines : List String) (producer : Int → Int → String × List Nat) (now : Nat)
      (input : List TimedLine), runLoop lines producer now input = LoopCtl.cont) ∧
    startupExit none = LoopCtl.halt 1 ∧
    (∀ p, startupExit (some p) = LoopCtl.cont) := by
  refine ⟨?_, rfl, fun _ => rfl⟩
  intro lines
  induction lines with
  | nil => intro producer now input; rfl
  | cons l ls ih =>
    intro producer now input
    cases hp : parseCommand l with
    | none =>
      have hbody : loopBody l producer now input = (LoopCtl.cont, none) := by
        simp only [loopBody, hp]
      simp only [runLoop, hbody]
      exact ih producer now input
    | some cmd =>
      have hbody : loopBody l producer now input = (LoopCtl.cont,
          some (send_data_via_serial now (producer cmd.width cmd.quality).2
            (producer cmd.width cmd.quality).1 input)) := by
        simp only [loopBody, hp]
      simp only [runLoop, hbody]
      exact ih producer _ _

end FotoForward
